import Mathlib

/-!
Verification of the Mqtt-Broker repository (an MQTT 3.1.1 broker in Rust):
a shallow embedding of the packet codec (`src/packets/utils.rs`,
`src/packets/mod.rs`, `src/packets/headers/*.rs`), the topic-matching
structures (`src/core/pattern.rs`, `src/core/topic.rs`, `src/topic_heir.rs`)
and the broker state (`src/core/mod.rs`, `src/listener.rs`,
`src/handlers/read_handler.rs`), together with theorems settling the
specification claims about them.

Conventions of the embedding:
* Rust `u8`/`u16`/`usize` values are `Nat`; every byte produced by the code
  is `< 256` and bit operations on bytes are translated to the equivalent
  arithmetic (`b & 127` ↦ `b % 128`, `b & 128 == 0` ↦ `b % 256 < 128`,
  `d |= 128` for `d < 128` ↦ `d + 128`).
* Rust `String` values are kept as their UTF-8 byte sequences
  (`List Nat`); `String::from_utf8` is modelled by an explicit UTF-8
  validity check.
* Byte iterators (`impl Iterator<Item = &u8>`) are modelled by passing the
  list of not-yet-consumed bytes in and out of each function.
* Fallible Rust functions returning `Result<T, MqttError>` become
  `Except MqttError T`; where a claim is about arithmetic underflow of a
  `usize` subtraction (a panic in debug builds, a wrap in release builds)
  the subtraction is modelled by a checked operation whose failure is the
  distinguished outcome `DErr.underflow`.
-/

/-- Error type of the codec (`src/error.rs`); payload-carrying variants
(`Convertion(String, String)`, `RequiredByteMissing(&str)`,
`MalformedString(FromUtf8Error)`, `Io`, …) keep only the constructor, the
diagnostic payloads play no role in control flow. -/
inductive MqttError where
  | Unknown
  | MalformedHeader
  | MalformedU16
  | MalformedU32
  | Convertion
  | MissingByte
  | RequiredByteMissing
  | MalformedString
  | InvalidLength
  | MalformedRemaingLength
  | UnsupportedProtocolVersion
  | UnknownProtocol
  | UnacceptableProtocolLevel
  | InvalidPacketType
  | MissingFixedHeader
  | ProtocolViolation
  | ClientIdentifierRejected
  | FailedToGetCId
  | QueuePoisonError
  deriving DecidableEq, Repr

/-- `QosLevel` from `src/packets/enums.rs`. -/
inductive QosLevel where
  | AtMost
  | AtLeast
  | Exactly
  deriving DecidableEq, Repr

/-- `u8::from(QosLevel)` (the `#[repr(u8)]` discriminant). -/
def QosLevel.toU8 : QosLevel → Nat
  | .AtMost => 0
  | .AtLeast => 1
  | .Exactly => 2

/-- `QosLevel::try_from(u8)` from `src/packets/enums.rs`. -/
def QosLevel.tryFrom (value : Nat) : Except MqttError QosLevel :=
  match value with
  | 0 => .ok .AtMost
  | 1 => .ok .AtLeast
  | 2 => .ok .Exactly
  | _ => .error .Convertion

/-- `SubackReturnCode` from `src/packets/enums.rs`. -/
inductive SubackReturnCode where
  | SuccessQosZero
  | SuccessQosOne
  | SuccessQosTwo
  | Failure
  deriving DecidableEq, Repr

/-- `ConnectReturnCode::try_from(&u8)` accepts 0..=5 only; we keep just the
codes this development needs. -/
inductive ConnectReturnCode where
  | Accepted
  | V4UnacceptableProtocal
  | V4IdentifierRejected
  | V4ServerUnavailable
  | V4BadUserNameOrPassword
  | V4NotAuthorized
  deriving DecidableEq, Repr

def ConnectReturnCode.tryFrom (value : Nat) : Except MqttError ConnectReturnCode :=
  match value with
  | 0 => .ok .Accepted
  | 1 => .ok .V4UnacceptableProtocal
  | 2 => .ok .V4IdentifierRejected
  | 3 => .ok .V4ServerUnavailable
  | 4 => .ok .V4BadUserNameOrPassword
  | 5 => .ok .V4NotAuthorized
  | _ => .error .Convertion

/-- `ProtocalVersion` from `src/core/enums.rs`. -/
inductive ProtocalVersion where
  | Four
  | Five
  | Unknown
  deriving DecidableEq, Repr

/-- `ProtocalVersion::from(u8)`: 4 ↦ Four, 5 ↦ Five, else Unknown. -/
def ProtocalVersion.fromU8 (value : Nat) : ProtocalVersion :=
  match value with
  | 4 => .Four
  | 5 => .Five
  | _ => .Unknown

/-! ## Byte-level utilities (`src/packets/utils.rs`) -/

/-- `unpack_u16`: takes two bytes (big-endian); fewer than two available is
`RequiredByteMissing`.  Returns the value and the remaining bytes. -/
def unpack_u16 (bs : List Nat) : Except MqttError (Nat × List Nat) :=
  match bs with
  | b1 :: b2 :: rest => .ok (b1 * 256 + b2, rest)
  | _ => .error .RequiredByteMissing

/-- `unpack_bytes`: `iter.take(len)` — takes at most `len` bytes, fewer when
the iterator runs out, and never fails. -/
def unpack_bytes (bs : List Nat) (len : Nat) : List Nat × List Nat :=
  (bs.take len, bs.drop len)

/-- UTF-8 validity of a byte sequence, exactly the check performed by Rust's
`String::from_utf8` (RFC 3629: correct continuation bytes, no overlong
forms, no surrogates, nothing above U+10FFFF). -/
def validUTF8 : List Nat → Bool
  | [] => true
  | b :: rest =>
    if b < 0x80 then validUTF8 rest
    else if b < 0xC2 then false
    else if b < 0xE0 then
      match rest with
      | b1 :: r => decide (0x80 ≤ b1 ∧ b1 < 0xC0) && validUTF8 r
      | _ => false
    else if b < 0xF0 then
      match rest with
      | b1 :: b2 :: r =>
        (if b = 0xE0 then decide (0xA0 ≤ b1 ∧ b1 < 0xC0)
         else if b = 0xED then decide (0x80 ≤ b1 ∧ b1 < 0xA0)
         else decide (0x80 ≤ b1 ∧ b1 < 0xC0))
          && decide (0x80 ≤ b2 ∧ b2 < 0xC0) && validUTF8 r
      | _ => false
    else if b < 0xF5 then
      match rest with
      | b1 :: b2 :: b3 :: r =>
        (if b = 0xF0 then decide (0x90 ≤ b1 ∧ b1 < 0xC0)
         else if b = 0xF4 then decide (0x80 ≤ b1 ∧ b1 < 0x90)
         else decide (0x80 ≤ b1 ∧ b1 < 0xC0))
          && decide (0x80 ≤ b2 ∧ b2 < 0xC0)
          && decide (0x80 ≤ b3 ∧ b3 < 0xC0) && validUTF8 r
      | _ => false
    else false

/-- `unpack_string_with_len`: `len == 0` returns the empty string without
any check; otherwise take up to `len` bytes and validate UTF-8
(`MalformedString` on failure).  Returns the string's bytes. -/
def unpack_string_with_len (bs : List Nat) (len : Nat) :
    Except MqttError (List Nat × List Nat) :=
  if len = 0 then .ok ([], bs)
  else
    let chars := bs.take len
    if validUTF8 chars then .ok (chars, bs.drop len)
    else .error .MalformedString

/-- `unpack_string`: u16 length prefix then `unpack_string_with_len`. -/
def unpack_string (bs : List Nat) : Except MqttError (List Nat × List Nat) :=
  match unpack_u16 bs with
  | .error e => .error e
  | .ok (len, rest) => unpack_string_with_len rest len

/-- `MAX_ENCODED_SIZE` from `src/packets/utils.rs`. -/
def MAX_ENCODED_SIZE : Nat := 128 * 128 * 128

/-- `MAX_ENCODED_BYTES` from `src/packets/utils.rs`. -/
def MAX_ENCODED_BYTES : Nat := 4

/-- Loop of `decode_length`: per iteration read a byte (`MissingByte` when
exhausted), `len += 1`, `value += (byte & 127) * multiplier`, fail with
`MalformedRemaingLength` when `multiplier > MAX_ENCODED_SIZE`, multiply the
multiplier by 128, and stop when `byte & 128 == 0`.  Also returns the
remaining bytes (the Rust iterator is advanced past the consumed bytes). -/
def decodeLengthAux : List Nat → Nat → Nat → Nat →
    Except MqttError (Nat × Nat × List Nat)
  | [], _, _, _ => .error .MissingByte
  | b :: rest, multiplier, value, len =>
    let len' := len + 1
    let value' := value + (b % 128) * multiplier
    if MAX_ENCODED_SIZE < multiplier then .error .MalformedRemaingLength
    else if b % 256 < 128 then .ok (value', len', rest)
    else decodeLengthAux rest (multiplier * 128) value' len'

/-- `decode_length` from `src/packets/utils.rs`. -/
def decode_length (bs : List Nat) : Except MqttError (Nat × Nat × List Nat) :=
  decodeLengthAux bs 1 0 0

/-- Loop of `encode_length`: stop silently when the buffer would exceed
`MAX_ENCODED_BYTES`; otherwise emit `mlen % 128`, with the continuation bit
(`d |= 128`, i.e. `+ 128` as `d < 128`) when `mlen / 128 > 0`, and continue
with `mlen / 128` until it is zero. -/
def encodeLengthAux (mlen : Nat) (bytes : List Nat) : List Nat :=
  if bytes.length + 1 > MAX_ENCODED_BYTES then bytes
  else
    let d := mlen % 128
    let m := mlen / 128
    let d' := if 0 < m then d + 128 else d
    let bytes' := bytes ++ [d']
    if h : m = 0 then bytes'
    else
      have : m < mlen := Nat.div_lt_self (by omega) (by omega)
      encodeLengthAux m bytes'
termination_by mlen

/-- `encode_length(len, bytes)` from `src/packets/utils.rs`. -/
def encode_length (len : Nat) (bytes : List Nat) : List Nat :=
  encodeLengthAux len bytes

/-- The base-128 digit string emitted for `mlen` when the buffer guard never
triggers (low digit first, continuation bit on all but the last digit). -/
def encDigits (mlen : Nat) : List Nat :=
  let d := mlen % 128
  let m := mlen / 128
  if h : m = 0 then [d]
  else
    have : m < mlen := Nat.div_lt_self (by omega) (by omega)
    (d + 128) :: encDigits m
termination_by mlen

/-- The minimal number of bytes of the MQTT remaining-length encoding of
`n` (7 value bits per byte). -/
def remLenBytes (n : Nat) : Nat :=
  if n < 128 then 1
  else if n < 128 * 128 then 2
  else if n < 128 * 128 * 128 then 3
  else 4

/-! ## Fixed header and packet decoding (`src/packets/headers/fixed_header.rs`,
`src/packets/mod.rs`) -/

/-- `SubackReturnCode::try_from(&u8)`. -/
def SubackReturnCode.tryFrom (value : Nat) : Except MqttError SubackReturnCode :=
  match value with
  | 0x00 => .ok .SuccessQosZero
  | 0x01 => .ok .SuccessQosOne
  | 0x02 => .ok .SuccessQosTwo
  | 0x80 => .ok .Failure
  | _ => .error .Convertion

/-- Error outcome of the decoder: a Rust `Err(MqttError)`, or the underflow
of a `usize` subtraction `len -= e` with `e > len` (a panic in debug builds,
a silent wrap in release builds).  The underflow outcome is kept separate so
that claims about it can be stated. -/
inductive DErr where
  | mqtt (e : MqttError)
  | underflow
  deriving DecidableEq, Repr

instance {eps alpha : Type} [DecidableEq eps] [DecidableEq alpha] :
    DecidableEq (Except eps alpha)
  | .ok a, .ok b => if h : a = b then .isTrue (by rw [h]) else .isFalse (by simp [h])
  | .ok _, .error _ => .isFalse (by simp)
  | .error _, .ok _ => .isFalse (by simp)
  | .error a, .error b => if h : a = b then .isTrue (by rw [h]) else .isFalse (by simp [h])

/-- The `usize` subtraction `a - b`, flagging underflow. -/
def usizeSub (a b : Nat) : Except DErr Nat :=
  if b ≤ a then .ok (a - b) else .error .underflow

/-- `FixedHeader`: first byte (`flags`) plus the decoded remaining length.
`rl_len` is the byte length of the remaining-length varint: the accessor
`get_rl_len()` is called in `Packet::unpack` but its definition is not in
src/, so the field is modelled from that use (the only value it can
sensibly produce). -/
structure FixedHeader where
  flags : Nat
  remaining_len : Nat
  rl_len : Nat
  deriving DecidableEq, Repr

/-- `get_packet_type` reads bits 7-4: `(flags & 0xF0) >> 4`. -/
def FixedHeader.packetType (h : FixedHeader) : Nat := h.flags % 256 / 16

/-- `get_dup`: `(flags & 0x08) >> 3 == 1`. -/
def FixedHeader.getDup (h : FixedHeader) : Bool := h.flags / 8 % 2 = 1

/-- `get_qos`: `QosLevel::try_from((flags & 0x06) >> 1)`. -/
def FixedHeader.getQos (h : FixedHeader) : Except MqttError QosLevel :=
  QosLevel.tryFrom (h.flags % 8 / 2)

/-- `get_retain`: `flags & 0x01 == 1`. -/
def FixedHeader.getRetain (h : FixedHeader) : Bool := h.flags % 2 = 1

/-- `FixedHeader::from_bytes`: one flags byte (`RequiredByteMissing` when
absent) then the remaining-length varint. -/
def FixedHeader.from_bytes (bs : List Nat) :
    Except MqttError (FixedHeader × List Nat) :=
  match bs with
  | [] => .error .RequiredByteMissing
  | b :: rest =>
    match decode_length rest with
    | .error e => .error e
    | .ok (len, rl, rest') => .ok (⟨b, len, rl⟩, rest')

/-- The UTF-8 bytes of the protocol name `"MQTT"`. -/
def mqttName : List Nat := [0x4D, 0x51, 0x54, 0x54]

/-- Variable headers produced by `VariableHeader::unpack`
(`src/packets/mod.rs`).  The MQTT-5 optional fields, which every decoding
branch sets to `None`/defaults, are omitted; there is no `Connect`
constructor because the Connect branch of `unpack` returns an error on
every input (see `unpackConnect`). -/
inductive VHeader where
  | connAck (acknowledgeFlags : Nat) (returnCode : ConnectReturnCode)
  | publish (topic : List Nat) (packetId : Option Nat) (payload : List Nat)
  | pubAck (packetId : Nat)
  | pubRec (packetId : Nat)
  | pubRel (packetId : Nat)
  | pubComp (packetId : Nat)
  | subscribe (packetId : Nat) (tuples : List (List Nat × QosLevel))
  | subAck (packetId : Nat) (returnCodes : List SubackReturnCode)
  | unsubscribe (packetId : Nat) (tuples : List (List Nat))
  | unsubAck (packetId : Nat)
  | pingReq
  | pingResp
  | disconnect
  deriving DecidableEq, Repr

/-- Connect branch of `VariableHeader::unpack`: protocol-name check
(`UnknownProtocol`), version byte (`RequiredByteMissing`), then the guard
`protocol_version != ProtocalVersion::Four || protocol_version !=
ProtocalVersion::Five`.  That disjunction holds for every byte value (no
version is both Four and Five), so the branch always returns
`UnacceptableProtocolLevel` once the name and version byte are read; the
flags/keepalive/client-id/will/username/password parsing that follows the
guard in the source is dead code for every input and is not carried over
(the `else` arm below is unreachable, see `connect_guard_always_true`). -/
def unpackConnect (bs : List Nat) : Except DErr (VHeader × List Nat) :=
  match unpack_string bs with
  | .error e => .error (.mqtt e)
  | .ok (protocal_name, bs1) =>
    if protocal_name ≠ mqttName then .error (.mqtt .UnknownProtocol)
    else
      match bs1 with
      | [] => .error (.mqtt .RequiredByteMissing)
      | b :: _ =>
        let pv := ProtocalVersion.fromU8 b
        if pv ≠ .Four ∨ pv ≠ .Five then .error (.mqtt .UnacceptableProtocolLevel)
        else .error (.mqtt .Unknown)

/-- Publish branch of `VariableHeader::unpack`: topic string, packet id iff
QoS > 0 (`len -= 2`), then `len -= 2 + topic.len()` and the payload is the
next `len` bytes. -/
def unpackPublish (fixed : FixedHeader) (bs : List Nat) :
    Except DErr (VHeader × List Nat) :=
  match unpack_string bs with
  | .error e => .error (.mqtt e)
  | .ok (topic, bs1) =>
    match fixed.getQos with
    | .error e => .error (.mqtt e)
    | .ok qos =>
      match (if 0 < qos.toU8 then
              match unpack_u16 bs1 with
              | .error e => .error (.mqtt e)
              | .ok (id, r) =>
                match usizeSub fixed.remaining_len 2 with
                | .error e => .error e
                | .ok l => .ok (some id, r, l)
             else .ok (none, bs1, fixed.remaining_len) :
             Except DErr (Option Nat × List Nat × Nat)) with
      | .error e => .error e
      | .ok (pid, bs2, len1) =>
        match usizeSub len1 (2 + topic.length) with
        | .error e => .error e
        | .ok len2 =>
          let (payload, bs3) := unpack_bytes bs2 len2
          .ok (.publish topic pid payload, bs3)

/-- Payload loop of the Subscribe branch: while `len > 0`, read a topic
string, `len -= topic.len() + 2`, read and convert a QoS byte
(`MalformedHeader` when absent), `len -= 1`.  The loop terminates because
`len` strictly decreases; the structural `fuel` argument pays for that in
Lean: callers pass `fuel = len`, and since every pass decreases `len` by at
least 3 and `fuel` by exactly 1, the fuel-exhausted arm is unreachable from
them. -/
def subLoop : Nat → Nat → List Nat → List (List Nat × QosLevel) →
    Except DErr (List (List Nat × QosLevel) × List Nat)
  | fuel, len, bs, tuples =>
    if len = 0 then .ok (tuples, bs)
    else
      match fuel with
      | 0 => .error .underflow
      | fuel' + 1 =>
        match unpack_string bs with
        | .error e => .error (.mqtt e)
        | .ok (topic, bs1) =>
          if topic.length + 2 ≤ len then
            match bs1 with
            | [] => .error (.mqtt .MalformedHeader)
            | q :: bs2 =>
              match QosLevel.tryFrom q with
              | .error e => .error (.mqtt e)
              | .ok qos =>
                if 1 ≤ len - (topic.length + 2) then
                  subLoop fuel' (len - (topic.length + 2) - 1) bs2
                    (tuples ++ [(topic, qos)])
                else .error .underflow
          else .error .underflow

/-- Subscribe branch of `VariableHeader::unpack`: the flags check
`!dup && qos != AtLeast && retain` (short-circuit: `get_qos` is only
evaluated when `dup` is unset), packet id, `len -= 2`, then the tuple loop;
an empty tuple list is `ProtocolViolation`. -/
def unpackSubscribe (fixed : FixedHeader) (bs : List Nat) :
    Except DErr (VHeader × List Nat) :=
  match (if !fixed.getDup then
          match fixed.getQos with
          | .error e => .error (.mqtt e)
          | .ok q => .ok (decide (q ≠ .AtLeast) && fixed.getRetain)
         else .ok false : Except DErr Bool) with
  | .error e => .error e
  | .ok true => .error (.mqtt .MalformedHeader)
  | .ok false =>
    match unpack_u16 bs with
    | .error e => .error (.mqtt e)
    | .ok (pid, bs1) =>
      match usizeSub fixed.remaining_len 2 with
      | .error e => .error e
      | .ok len =>
        match subLoop len len bs1 [] with
        | .error e => .error e
        | .ok (tuples, bs2) =>
          if tuples.isEmpty then .error (.mqtt .ProtocolViolation)
          else .ok (.subscribe pid tuples, bs2)

/-- Return-code loop of the Suback branch: while `len > 0`, read a byte
(`MissingByte` when absent), convert it, `len -= 1`; structural fuel as in
`subLoop` (callers pass `fuel = len`, each pass decreases both by 1, so
the fuel-exhausted arm is unreachable from them). -/
def subAckLoop : Nat → Nat → List Nat → List SubackReturnCode →
    Except DErr (List SubackReturnCode × List Nat)
  | fuel, len, bs, codes =>
    if len = 0 then .ok (codes, bs)
    else
      match fuel with
      | 0 => .error .underflow
      | fuel' + 1 =>
        match bs with
        | [] => .error (.mqtt .MissingByte)
        | b :: bs1 =>
          match SubackReturnCode.tryFrom b with
          | .error e => .error (.mqtt e)
          | .ok c => subAckLoop fuel' (len - 1) bs1 (codes ++ [c])

/-- Suback branch: packet id, `len = remaining - 2`, then the code loop. -/
def unpackSubAck (fixed : FixedHeader) (bs : List Nat) :
    Except DErr (VHeader × List Nat) :=
  match unpack_u16 bs with
  | .error e => .error (.mqtt e)
  | .ok (pid, bs1) =>
    match usizeSub fixed.remaining_len 2 with
    | .error e => .error e
    | .ok len =>
      match subAckLoop len len bs1 [] with
      | .error e => .error e
      | .ok (codes, bs2) => .ok (.subAck pid codes, bs2)

/-- Topic loop of the Unsubscribe branch: while `len > 0`, `len -= 2`, read
a topic string, `len -= topic.len()`; structural fuel as in `subLoop`
(callers pass `fuel = len`, each pass decreases `len` by at least 2 and
`fuel` by 1, so the fuel-exhausted arm is unreachable from them). -/
def unsubLoop : Nat → Nat → List Nat → List (List Nat) →
    Except DErr (List (List Nat) × List Nat)
  | fuel, len, bs, tuples =>
    if len = 0 then .ok (tuples, bs)
    else
      match fuel with
      | 0 => .error .underflow
      | fuel' + 1 =>
        if 2 ≤ len then
          match unpack_string bs with
          | .error e => .error (.mqtt e)
          | .ok (topic, bs1) =>
            if topic.length ≤ len - 2 then
              unsubLoop fuel' (len - 2 - topic.length) bs1 (tuples ++ [topic])
            else .error .underflow
        else .error .underflow

/-- Unsubscribe branch: packet id, `len -= 2`, then the topic loop (no
empty-list check in the source). -/
def unpackUnsubscribe (fixed : FixedHeader) (bs : List Nat) :
    Except DErr (VHeader × List Nat) :=
  match unpack_u16 bs with
  | .error e => .error (.mqtt e)
  | .ok (pid, bs1) =>
    match usizeSub fixed.remaining_len 2 with
    | .error e => .error e
    | .ok len =>
      match unsubLoop len len bs1 [] with
      | .error e => .error e
      | .ok (tuples, bs2) => .ok (.unsubscribe pid tuples, bs2)

/-- ConnAck branch: acknowledge-flags byte, return-code byte (0..=5). -/
def unpackConnAck (bs : List Nat) : Except DErr (VHeader × List Nat) :=
  match bs with
  | f :: rc :: rest =>
    match ConnectReturnCode.tryFrom rc with
    | .error e => .error (.mqtt e)
    | .ok c => .ok (.connAck f c, rest)
  | _ => .error (.mqtt .MissingByte)

/-- A two-byte packet-id branch (PUBACK/PUBREC/PUBREL/PUBCOMP/UNSUBACK). -/
def unpackPacketId (mk : Nat → VHeader) (bs : List Nat) :
    Except DErr (VHeader × List Nat) :=
  match unpack_u16 bs with
  | .error e => .error (.mqtt e)
  | .ok (id, rest) => .ok (mk id, rest)

/-- `VariableHeader::unpack`, dispatching on
`fixed.get_packet_type()` (`PacketType::try_from` accepts 1..=14 and
returns a `Convertion` error otherwise, which makes the `Auth` arm of the
source match unreachable). -/
def VariableHeader.unpack (fixed : FixedHeader) (bs : List Nat) :
    Except DErr (VHeader × List Nat) :=
  match fixed.packetType with
  | 1 => unpackConnect bs
  | 2 => unpackConnAck bs
  | 3 => unpackPublish fixed bs
  | 4 => unpackPacketId .pubAck bs
  | 5 => unpackPacketId .pubRec bs
  | 6 => unpackPacketId .pubRel bs
  | 7 => unpackPacketId .pubComp bs
  | 8 => unpackSubscribe fixed bs
  | 9 => unpackSubAck fixed bs
  | 10 => unpackUnsubscribe fixed bs
  | 11 => unpackPacketId .unsubAck bs
  | 12 => .ok (.pingReq, bs)
  | 13 => .ok (.pingResp, bs)
  | 14 => .ok (.disconnect, bs)
  | _ => .error (.mqtt .Convertion)

/-- `Packet` (`src/packets/mod.rs`). -/
structure Packet where
  fixed : FixedHeader
  var : VHeader
  deriving DecidableEq, Repr

/-- `Packet::unpack`: fixed header, then the variable header; the consumed
length is `remaining_len + rl_len + 1`. -/
def Packet.unpack (bytes : List Nat) : Except DErr (Packet × Nat) :=
  match FixedHeader.from_bytes bytes with
  | .error e => .error (.mqtt e)
  | .ok (fixed, rest) =>
    let len := fixed.remaining_len + fixed.rl_len + 1
    match VariableHeader.unpack fixed rest with
    | .error e => .error e
    | .ok (v, _) => .ok (⟨fixed, v⟩, len)

/-! ## Topic pattern matching (`src/core/pattern.rs`) -/

/-- Topic strings handled character-wise. -/
abbrev Str := List Char

/-- `target.starts_with(VARIABLE_IDENT)` with `VARIABLE_IDENT = "$"`. -/
def startsWithDollar (s : Str) : Bool :=
  match s with
  | c :: _ => c = '$'
  | [] => false

/-- Worker of `Pattern::split_inclusive`: segments between `/` separators
(omitted when empty, i.e. when two separators are adjacent or the string
starts with one), with each `/` kept as its own one-character token and the
final segment appended when non-empty. -/
def splitInclusiveGo : List Char → List Char → List Str
  | [], acc => if acc.isEmpty then [] else [acc.reverse]
  | c :: rest, acc =>
    if c = '/' then
      (if acc.isEmpty then [] else [acc.reverse]) ++ ['/'] :: splitInclusiveGo rest []
    else splitInclusiveGo rest (c :: acc)

/-- `Pattern::split_inclusive`. -/
def splitInclusive (s : Str) : List Str := splitInclusiveGo s []

/-- The loop of `Pattern::matches`; the first list holds the tokens of the
concrete topic the `Pattern` was built from (`target_iter`), the second the
tokens of the filter passed to `matches` (`pattern_iter`), and `idx` is the
1-based iteration count used by the `$`-topic guard. -/
def matchesAux : List Str → List Str → Nat → Bool
  | [], [], _ => true
  | [], _ :: _, _ => false
  | _ :: _, [], _ => false
  | t :: ts, p :: ps, idx =>
    if p = ['#'] && !(startsWithDollar t && idx == 1) then true
    else if p = ['+'] && !(startsWithDollar t && idx == 1) then
      matchesAux ts ps (idx + 1)
    else if p = t then matchesAux ts ps (idx + 1)
    else false

/-- `Pattern::new(topic).matches(filter)`. -/
def Pattern.matches (topic filter : Str) : Bool :=
  matchesAux (splitInclusive topic) (splitInclusive filter) 1

/-! ## Filter table with linear matching (`src/core/topic.rs`) -/

/-- A `Subscriber` is `(Sender<Event>, QosLevel)`; the channel handle is a
number identifying the owning client connection. -/
abbrev Subscriber := Nat × QosLevel

/-- Association-list model of a `HashMap` keyed by strings: lookup of the
first (unique) matching key. -/
def alookup {α : Type} : List (Str × α) → Str → Option α
  | [], _ => none
  | (k', v) :: rest, k => if k' = k then some v else alookup rest k

/-- `HashMap::insert` on a present key: replace its value in place;
otherwise add the binding. -/
def aupdate {α : Type} : List (Str × α) → Str → α → List (Str × α)
  | [], k, v => [(k, v)]
  | (k', v') :: rest, k, v =>
    if k' = k then (k, v) :: rest else (k', v') :: aupdate rest k v

/-- `HashMap::remove`. -/
def aremove {α : Type} : List (Str × α) → Str → List (Str × α)
  | [], _ => []
  | (k', v') :: rest, k => if k' = k then rest else (k', v') :: aremove rest k

/-- `Topics` (`src/core/topic.rs`): topic-filter string ↦ per-client
subscriber map (`ClientId ↦ (Sender, QosLevel)`). -/
structure Topics where
  table : List (Str × List (Str × Subscriber))
  deriving DecidableEq, Repr

def Topics.new : Topics := ⟨[]⟩

/-- `Topics::get_matches`: every stored filter matched by
`Pattern::new(topic)` contributes all its subscriber-map values, flattened,
with no deduplication across filters. -/
def Topics.get_matches (t : Topics) (topic : Str) : List Subscriber :=
  ((t.table.filter (fun data => Pattern.matches topic data.1)).map
    (fun data => data.2.map (·.2))).flatten

/-- `Topics::subscribe`: update the QoS in place when the client already
subscribes to the filter, insert the subscriber otherwise (the source's
`ok_or_else` error paths are unreachable — the lookups follow a
`contains_key` check — so the result type is plain `Topics`). -/
def Topics.subscribe (t : Topics) (topic_name : Str) (qos : QosLevel)
    (cid : Str) (tx : Nat) : Topics :=
  match alookup t.table topic_name with
  | some topicTable =>
    match alookup topicTable cid with
    | some sub => ⟨aupdate t.table topic_name (aupdate topicTable cid (sub.1, qos))⟩
    | none => ⟨aupdate t.table topic_name (topicTable ++ [(cid, (tx, qos))])⟩
  | none => ⟨t.table ++ [(topic_name, [(cid, (tx, qos))])]⟩

/-- `Topics::unsubscribe`: drop the client from the filter's subscriber map
and drop the filter entirely when that map becomes empty. -/
def Topics.unsubscribe (t : Topics) (cid : Str) (topic_name : Str) : Topics :=
  match alookup t.table topic_name with
  | none => t
  | some topicTable =>
    let topicTable' := aremove topicTable cid
    if topicTable'.isEmpty then ⟨aremove t.table topic_name⟩
    else ⟨aupdate t.table topic_name topicTable'⟩

/-! ## Subscription trie (`src/topic_heir.rs`, `src/utils.rs`) -/

/-- Worker of the `str::split('/')` tokenisation: every segment is kept,
empty segments included. -/
def splitOnSlashGo : List Char → List Char → List Str
  | [], acc => [acc.reverse]
  | c :: rest, acc =>
    if c = '/' then acc.reverse :: splitOnSlashGo rest []
    else splitOnSlashGo rest (c :: acc)

def splitOnSlash (s : Str) : List Str := splitOnSlashGo s []

/-- `tokenise_topic` (`src/utils.rs`): split on `/`; a leading `$share`
level is removed, the next level is the share name and is replaced by the
empty level; `$share` alone is `Err(1)`. -/
def tokenise_topic (value : Str) : Except Nat (List Str × Option Str) :=
  match splitOnSlash value with
  | first :: restT =>
    if first = "$share".toList then
      match restT with
      | [] => .error 1
      | share :: rest2 => .ok (([] : Str) :: rest2, some share)
    else .ok (first :: restT, none)
  | [] => .ok ([], none)

/-- `SubscriptionLeaf` (`src/topic_heir.rs`). -/
structure SubscriptionLeaf where
  qos : QosLevel
  identifier : Nat
  bridge : Nat
  no_local : Bool
  retain_as_published : Bool
  deriving DecidableEq, Repr

/-- A trie node (`SubHier`): literal-level children, regular subscribers,
and shared groups. -/
inductive SubHier where
  | mk (children : List (Str × SubHier)) (subs : List SubscriptionLeaf)
      (shared : List (Str × List SubscriptionLeaf))

def SubHier.children : SubHier → List (Str × SubHier)
  | .mk c _ _ => c

def SubHier.subs : SubHier → List SubscriptionLeaf
  | .mk _ s _ => s

def SubHier.shared : SubHier → List (Str × List SubscriptionLeaf)
  | .mk _ _ sh => sh

def SubHier.new : SubHier := .mk [] [] []

/-- `Vec::remove` at `iter().position(|e| e.identifier == id)`: drop the
first leaf with the given identifier, if any. -/
def removeFirstById : List SubscriptionLeaf → Nat → List SubscriptionLeaf
  | [], _ => []
  | x :: rest, ident =>
    if x.identifier = ident then rest else x :: removeFirstById rest ident

/-- `SubHier::insert`: walk the filter levels creating nodes as needed; at
the terminal node replace any prior leaf with the same identifier, in the
named share group or in the regular subscriber list. -/
def SubHier.insert : SubHier → List Str → SubscriptionLeaf → Option Str → SubHier
  | h, topic :: iter, sub, share =>
    let child := (alookup h.children topic).getD SubHier.new
    .mk (aupdate h.children topic (child.insert iter sub share)) h.subs h.shared
  | h, [], sub, some sharename =>
    let s := (alookup h.shared sharename).getD []
    .mk h.children h.subs
      (aupdate h.shared sharename (removeFirstById s sub.identifier ++ [sub]))
  | h, [], sub, none =>
    .mk h.children (removeFirstById h.subs sub.identifier ++ [sub]) h.shared

/-- `SubHier::delete`: walk the path, remove the identifier at the terminal
node, prune children that report themselves empty; the returned flag says
whether this node is now empty. -/
def SubHier.delete : SubHier → List Str → Nat → Option Str → SubHier × Bool
  | h, topic :: iter, ident, share =>
    let h' :=
      match alookup h.children topic with
      | some child =>
        let (child', can_remove) := child.delete iter ident share
        let c1 := aupdate h.children topic child'
        SubHier.mk (if can_remove then aremove c1 topic else c1) h.subs h.shared
      | none => h
    (h', h'.children.isEmpty && h'.shared.isEmpty && h'.subs.isEmpty)
  | h, [], ident, some sharename =>
    let h' :=
      match alookup h.shared sharename with
      | some s =>
        SubHier.mk h.children h.subs
          (aupdate h.shared sharename (removeFirstById s ident))
      | none => h
    (h', h'.children.isEmpty && h'.shared.isEmpty && h'.subs.isEmpty)
  | h, [], ident, none =>
    let h' := SubHier.mk h.children (removeFirstById h.subs ident) h.shared
    (h', h'.children.isEmpty && h'.shared.isEmpty && h'.subs.isEmpty)

/-- Entries collected by the match lookup:
`(identifier, bridge, granted QoS)`. -/
abbrev SubEntry := Nat × Nat × QosLevel

/-- The guarded push `if !subscribers.iter().any(|e| e.0 == x.identifier)
{ subscribers.push(...) }`. -/
def pushUniq (subscribers : List SubEntry) (x : SubscriptionLeaf) :
    List SubEntry :=
  if subscribers.any (fun e => e.1 == x.identifier) then subscribers
  else subscribers ++ [(x.identifier, x.bridge, x.qos)]

def pushAllUniq (subscribers : List SubEntry) (xs : List SubscriptionLeaf) :
    List SubEntry :=
  xs.foldl pushUniq subscribers

/-- The trailing `#`-child block that both `SubHier::get` and
`SubscriptionTree::get` run after their level handling: when a `#` child
exists, push its shared group (under a share name) or its regular
subscribers, deduplicated. -/
def hashContribution (childOpt : Option SubHier) (share : Option Str)
    (acc : List SubEntry) : List SubEntry :=
  match childOpt with
  | some child =>
    match share with
    | some sh =>
      match alookup child.shared sh with
      | some s => pushAllUniq acc s
      | none => acc
    | none => pushAllUniq acc child.subs
  | none => acc

/-- `SubHier::get`.  The `&mut` token iterator shared by the exact-level and
`+`-level recursive calls is modelled by threading the remaining-token list
through the calls; recursion is paid for by a fuel argument that the
callers instantiate with more than the token count, which is an upper bound
on the recursion depth (every recursive call strictly shortens the token
list), so the fuel-exhausted branch is never reached from `SubscriptionTree.get`. -/
def SubHier.get : Nat → SubHier → List Str → List SubEntry → Option Str →
    List SubEntry × List Str
  | 0, _, toks, acc, _ => (acc, toks)
  | fuel + 1, h, toks, acc, share =>
    let step :=
      match toks with
      | topic :: iter =>
        let first :=
          match alookup h.children topic with
          | some child => SubHier.get fuel child iter acc share
          | none => (acc, iter)
        match alookup h.children ['+'] with
        | some child => SubHier.get fuel child first.2 first.1 share
        | none => first
      | [] =>
        match share with
        | some sh =>
          ((match alookup h.shared sh with
            | some s => pushAllUniq acc s
            | none => acc), [])
        | none => (pushAllUniq acc h.subs, [])
    (hashContribution (alookup h.children ['#']) share step.1, step.2)

/-- `SubscriptionTree` (the tuple struct wrapping the root map). -/
structure SubscriptionTree where
  root : List (Str × SubHier)

def SubscriptionTree.new : SubscriptionTree := ⟨[]⟩

/-- `SubscriptionTree::insert`. -/
def SubscriptionTree.insert (tree : SubscriptionTree) (filter : Str)
    (sub : SubscriptionLeaf) : Except Nat SubscriptionTree :=
  match tokenise_topic filter with
  | .error e => .error e
  | .ok (filter_list, sharename) =>
    match filter_list with
    | topic :: iter =>
      let child := (alookup tree.root topic).getD SubHier.new
      .ok ⟨aupdate tree.root topic (child.insert iter sub sharename)⟩
    | [] => .ok tree

/-- `SubscriptionTree::delete`. -/
def SubscriptionTree.delete (tree : SubscriptionTree) (filter : Str)
    (ident : Nat) : Except Nat SubscriptionTree :=
  match tokenise_topic filter with
  | .error e => .error e
  | .ok (filter_list, sharename) =>
    match filter_list with
    | topic :: iter =>
      match alookup tree.root topic with
      | some child =>
        let res := child.delete iter ident sharename
        let r1 := aupdate tree.root topic res.1
        .ok ⟨if res.2 then aremove r1 topic else r1⟩
      | none => .ok tree
    | [] => .ok tree

/-- The first-level handling of `SubscriptionTree::get`: look into the
exact child and into the `+` child, the two sharing the (already advanced)
token iterator as in the source. -/
def treeGetStep (root : List (Str × SubHier)) (filter_list : List Str)
    (sharename : Option Str) : List SubEntry × List Str :=
  match filter_list with
  | topic :: iter =>
    let first :=
      match alookup root topic with
      | some child => SubHier.get (iter.length + 1) child iter [] sharename
      | none => ([], iter)
    match alookup root ['+'] with
    | some child => SubHier.get (first.2.length + 1) child first.2 first.1 sharename
    | none => first
  | [] => ([], [])

/-- `SubscriptionTree::get`: tokenise the concrete topic, look into the
exact first-level child and the `+` child (sharing the token iterator, as
in the source), then collect the root-level `#` child's subscribers — with
no `$`-topic guard anywhere. -/
def SubscriptionTree.get (tree : SubscriptionTree) (filter : Str) :
    Except Nat (List SubEntry) :=
  match tokenise_topic filter with
  | .error e => .error e
  | .ok (filter_list, sharename) =>
    .ok (hashContribution (alookup tree.root ['#']) sharename
      (treeGetStep tree.root filter_list sharename).1)

/-! ## CONNECT header decoding (`src/packets/headers/connect.rs`) -/

/-- `Flags::clean_session`: `(flags & 0x2) >> 1 == 1`. -/
def Flags.clean_session (f : Nat) : Bool := f % 4 / 2 = 1

/-- `Flags::will`: `(flags & 0x04) >> 2 == 1`. -/
def Flags.will (f : Nat) : Bool := f % 8 / 4 = 1

/-- `Flags::will_qos`: `QosLevel::try_from((flags & 0x18) >> 3)`. -/
def Flags.will_qos (f : Nat) : Except MqttError QosLevel :=
  QosLevel.tryFrom (f % 32 / 8)

/-- `Flags::will_retain`: `(flags & 0x20) >> 5 == 1`. -/
def Flags.will_retain (f : Nat) : Bool := f % 64 / 32 = 1

/-- `Flags::has_password`: `(flags & 0x40) >> 6 == 1`. -/
def Flags.has_password (f : Nat) : Bool := f % 128 / 64 = 1

/-- `Flags::has_username`: `(flags & 0x80) >> 7 == 1`. -/
def Flags.has_username (f : Nat) : Bool := f % 256 / 128 = 1

/-- `ConnectHeader` restricted to the fields the 3.1.1 decoding path sets
(the MQTT-5 option fields keep their defaults throughout and are
omitted). -/
structure ConnectHeader where
  flags : Nat
  keepalive : Nat
  client_id : List Nat
  username : List Nat
  password : List Nat
  will_topic : List Nat
  will_message : List Nat
  protocal_version : Nat
  deriving DecidableEq, Repr

/-- `ConnectHeader::from_bytes`.  `freshId` stands for the random
`uuid::Uuid::new_v4().to_string()` substituted for an empty ClientId when
CleanSession is set.  The `if protocal_version == 5 { unpack_properties }`
line and the v5 `todo!` in the will branch are dead code — the guard above
them admits only version 4 (`!= 4` returns `UnsupportedProtocolVersion`) —
and are not carried over. -/
def ConnectHeader.from_bytes (freshId : List Nat) (bs : List Nat) :
    Except MqttError (ConnectHeader × List Nat) :=
  match unpack_string bs with
  | .error e => .error e
  | .ok (protocal_name, bs1) =>
    if protocal_name ≠ mqttName then .error .UnsupportedProtocolVersion
    else
      match bs1 with
      | [] => .error .MissingByte
      | pv :: bs2 =>
        if pv ≠ 4 then .error .UnsupportedProtocolVersion
        else
          match bs2 with
          | [] => .error .MissingByte
          | fl :: bs3 =>
            match unpack_u16 bs3 with
            | .error e => .error e
            | .ok (keepalive, bs4) =>
              match unpack_string bs4 with
              | .error e => .error e
              | .ok (cid0, bs5) =>
                match (if cid0.isEmpty then
                        if !Flags.clean_session fl then
                          .error .ClientIdentifierRejected
                        else .ok freshId
                       else .ok cid0 : Except MqttError (List Nat)) with
                | .error e => .error e
                | .ok client_id =>
                  match (if Flags.will fl then
                          match unpack_string bs5 with
                          | .error e => .error e
                          | .ok (wt, r) =>
                            match unpack_string r with
                            | .error e => .error e
                            | .ok (wm, r2) => .ok (wt, wm, r2)
                         else .ok ([], [], bs5) :
                         Except MqttError (List Nat × List Nat × List Nat)) with
                  | .error e => .error e
                  | .ok (will_topic, will_message, bs6) =>
                    match (if Flags.has_username fl then unpack_string bs6
                           else .ok ([], bs6) :
                           Except MqttError (List Nat × List Nat)) with
                    | .error e => .error e
                    | .ok (username, bs7) =>
                      match (if Flags.has_password fl then unpack_string bs7
                             else .ok ([], bs7) :
                             Except MqttError (List Nat × List Nat)) with
                      | .error e => .error e
                      | .ok (password, bs8) =>
                        .ok (⟨fl, keepalive, client_id, username, password,
                              will_topic, will_message, 4⟩, bs8)

/-- A CONNECT byte sequence with protocol name `MQTT`, level 4, connect
flags `fl`, keepalive `ka1·256 + ka2`, an empty ClientId, and `rest` after
it. -/
def connectBytesEmptyCid (fl ka1 ka2 : Nat) (rest : List Nat) : List Nat :=
  [0, 4] ++ mqttName ++ [4, fl, ka1, ka2, 0, 0] ++ rest

/-! ## Keepalive handling of the read loop (`src/handlers/read_handler.rs`) -/

/-- The inbound packet shapes the read-loop match distinguishes; only the
keepalive field of CONNECT matters here. -/
inductive InPacket where
  | connect (keepalive : Nat)
  | publish
  | subscribe
  | unsubscribe
  | pubAck
  | pubRec
  | pubRel
  | pubComp
  | pingReq
  | disconnect
  deriving DecidableEq, Repr

/-- Keepalive-relevant state of `handle_read_stream`: the current
`keepalive_duration` in seconds and the `seen_connect_packet` flag. -/
structure ReadState where
  keepalive_duration : Nat
  seen_connect_packet : Bool
  deriving DecidableEq, Repr

/-- Initial state: `keepalive_duration = 60` and the timer armed by
`sleep(Duration::from_secs(60))`. -/
def ReadState.init : ReadState := ⟨60, false⟩

def initialKeepaliveDeadline : Nat := 60

/-- One packet through the read loop, returning the new state and `some d`
when the code resets the keepalive timer to `now + d` seconds: a first
CONNECT sets `keepalive_duration = keepalive + 4` and resets the timer to
it; a PINGREQ resets the timer to the current duration; no other packet
touches the timer (a second CONNECT is a protocol violation that ends the
loop). -/
def readKeepaliveStep (s : ReadState) (p : InPacket) : ReadState × Option Nat :=
  match p with
  | .connect k =>
    if s.seen_connect_packet then (s, none)
    else ({ keepalive_duration := k + 4, seen_connect_packet := true },
      some (k + 4))
  | .pingReq => (s, some s.keepalive_duration)
  | _ => (s, none)

/-! ## Broker state (`src/core/mod.rs`) and publish dispatch -/

/-- `ClientEvent` (`src/core/enums.rs`). -/
inductive ClientEvent where
  | message (payload : List Nat)
  | disconnect
  deriving DecidableEq, Repr

/-- `Session` as used by the `App` in `src/core/mod.rs` (`session.id`,
`session.bridge`, `Session::new(message_channel)`): this variant's struct
definition is not under src/ (the `core/session.rs` present there belongs
to a different variant), so the fields are exactly those its uses
require; the id `Session::new` generates is passed in by the caller. -/
structure Session where
  id : Nat
  bridge : Nat
  deriving DecidableEq, Repr

/-- `App` (`src/core/mod.rs`): client registry plus subscription trie. -/
structure App where
  sessions : List (Str × Session)
  subscriptions : SubscriptionTree

def App.new : App := ⟨[], SubscriptionTree.new⟩

/-- Primitive effects performed by `App::connect`, in program order. -/
inductive BrokerAction where
  | sendEvent (bridge : Nat) (ev : ClientEvent)
  | setBridge (cid : Str) (bridge : Nat)
  | insertSession (cid : Str) (s : Session)
  deriving DecidableEq, Repr

/-- `App::connect`: when a session with this id exists, first send
`ClientEvent::Disconnect` on its bridge, then replace that session's
bridge; otherwise insert a fresh session.  The returned action list is in
the order the code performs the effects. -/
def App.connect (a : App) (client_id : Str) (message_channel : Nat)
    (freshSessionId : Nat) : App × List BrokerAction :=
  let pre :=
    match alookup a.sessions client_id with
    | some current => [BrokerAction.sendEvent current.bridge .disconnect]
    | none => []
  match alookup a.sessions client_id with
  | some existing =>
    ({ a with sessions :=
        aupdate a.sessions client_id (Session.mk existing.id message_channel) },
      pre ++ [.setBridge client_id message_channel])
  | none =>
    let s : Session := ⟨freshSessionId, message_channel⟩
    ({ a with sessions := aupdate a.sessions client_id s },
      pre ++ [.insertSession client_id s])

/-- `App::disconnect`: remove the session. -/
def App.disconnect (a : App) (cid : Str) : App :=
  { a with sessions := aremove a.sessions cid }

/-- The per-filter body of `App::subscribe` (the 3-argument
`SubscriptionLeaf::new(qos, id, bridge)` call of this variant leaves
`no_local`/`retain_as_published` at their default `false`). -/
def subscribeOne (session : Session) (st : SubscriptionTree × List SubackReturnCode)
    (tq : Str × QosLevel) : SubscriptionTree × List SubackReturnCode :=
  let leaf : SubscriptionLeaf := ⟨tq.2, session.id, session.bridge, false, false⟩
  match st.1.insert tq.1 leaf with
  | .error _ => (st.1, st.2 ++ [SubackReturnCode.Failure])
  | .ok t' =>
    (t', st.2 ++ [match tq.2 with
      | .AtMost => SubackReturnCode.SuccessQosZero
      | .AtLeast => SubackReturnCode.SuccessQosOne
      | .Exactly => SubackReturnCode.SuccessQosTwo])

/-- `App::subscribe`: `Err(Unknown)` for an unknown client; otherwise
insert each filter into the trie and collect the granted codes. -/
def App.subscribe (a : App) (cid : Str) (topics : List (Str × QosLevel)) :
    App × Except MqttError (List SubackReturnCode) :=
  match alookup a.sessions cid with
  | none => (a, .error .Unknown)
  | some session =>
    let res := topics.foldl (subscribeOne session) (a.subscriptions, [])
    ({ a with subscriptions := res.1 }, .ok res.2)

/-- `App::unsubscribe`: delete each filter for the session's identifier
(failures are logged and ignored). -/
def App.unsubscribe (a : App) (cid : Str) (topics : List Str) :
    App × Except MqttError Unit :=
  match alookup a.sessions cid with
  | none => (a, .error .Unknown)
  | some session =>
    let tree := topics.foldl (fun t topic =>
      match SubscriptionTree.delete t topic session.id with
      | .ok t' => t'
      | .error _ => t) a.subscriptions
    ({ a with subscriptions := tree }, .ok ())

/-- `FixedHeader::new` packs `retain | qos << 1 | dup << 3 | type << 4`;
the fields occupy disjoint bits, so the `|=`s sum. -/
def FixedHeader.newByte (packet_type : Nat) (dup : Bool) (qos : QosLevel)
    (retain : Bool) : Nat :=
  (if retain then 1 else 0) + qos.toU8 * 2 + (if dup then 1 else 0) * 8 +
    packet_type * 16

/-- The first byte of `Packet::make_publish(dup=false, qos, retain=false, ...)`. -/
def make_publish_header (qos : QosLevel) : Nat :=
  FixedHeader.newByte 3 false qos false

/-- The payload-carrying part of the PUBLISH packet `make_publish` builds
for a recipient. -/
structure PublishOut where
  header : Nat
  topic : Str
  packetId : Option Nat
  payload : List Nat
  deriving DecidableEq, Repr

/-- `App::publish` (`src/core/mod.rs` lines 138-153): query the trie; on a
tokenise error return silently; otherwise, for each `(_, bridge, qos)`
entry send `make_publish(false, qos, false, topic, None, payload)` on that
bridge.  The result lists the `(bridge, packet)` sends in order. -/
def App.publish (a : App) (topic : Str) (payload : List Nat) :
    List (Nat × PublishOut) :=
  match a.subscriptions.get topic with
  | .error _ => []
  | .ok subs =>
    subs.map (fun s => (s.2.1, ⟨make_publish_header s.2.2, topic, none, payload⟩))

/-- The spec's `min(recipient-granted-qos, publish-qos)`. -/
def minQos (a b : QosLevel) : QosLevel := if a.toU8 ≤ b.toU8 then a else b

/-- Commands of the broker loop (`src/core/enums.rs`); `Publish` carries
only topic and payload — no QoS field. -/
inductive Command where
  | registerClient (id : Str) (message_channel : Nat) (clean_session : Bool)
  | subscribe (client : Str) (topics : List (Str × QosLevel))
  | unsubscribe (client : Str) (topics : List Str)
  | publish (topic : Str) (payload : List Nat)
  | disconnectClient (cid : Str)
  | exit
  deriving DecidableEq, Repr

/-- One command through the broker loop, dispatching to the `App` methods
(`fresh` feeds `Session::new` on a registering client). -/
def App.step (a : App) (cmd : Command) (fresh : Nat) : App × List BrokerAction :=
  match cmd with
  | .registerClient id chan _ => App.connect a id chan fresh
  | .subscribe c topics => ((App.subscribe a c topics).1, [])
  | .unsubscribe c topics => ((App.unsubscribe a c topics).1, [])
  | .publish _ _ => (a, [])
  | .disconnectClient cid => (App.disconnect a cid, [])
  | .exit => (a, [])

/-- The client identifiers registered in the session map. -/
def sessionKeys (a : App) : List Str := a.sessions.map (·.1)

/-! ## Spec-side auxiliary definitions used by the claim statements -/

/-- The wire form of one SUBSCRIBE payload tuple: big-endian u16 length,
topic bytes, QoS byte. -/
def encodeSubTuple (t : List Nat) (q : Nat) : List Nat :=
  [t.length / 256, t.length % 256] ++ t ++ [q]

def encodeSubTuples (ts : List (List Nat × Nat)) : List Nat :=
  (ts.map (fun tq => encodeSubTuple tq.1 tq.2)).flatten

/-- The byte count such a tuple list contributes to the remaining length. -/
def subTuplesSize (ts : List (List Nat × Nat)) : Nat :=
  (ts.map (fun tq => tq.1.length + 3)).sum

/-- The wire form of one UNSUBSCRIBE payload topic: u16 length then bytes. -/
def encodeUnsubTuple (t : List Nat) : List Nat :=
  [t.length / 256, t.length % 256] ++ t

def encodeUnsubTuples (ts : List (List Nat)) : List Nat :=
  (ts.map encodeUnsubTuple).flatten

def unsubTuplesSize (ts : List (List Nat)) : Nat :=
  (ts.map (fun t => t.length + 2)).sum

/-- The identifiers of the entries a trie lookup collected. -/
def entryIds (l : List SubEntry) : List Nat := l.map (·.1)

/-- The channel handles of the subscribers a `Topics` lookup returned (one
handle belongs to one client connection). -/
def subscriberIds (l : List Subscriber) : List Nat := l.map (·.1)
/-! ### Facts about the remaining-length codec -/

theorem encDigits_of_lt (n : Nat) (h : n < 128) : encDigits n = [n] := by
  rw [encDigits]
  simp [Nat.div_eq_of_lt h, Nat.mod_eq_of_lt h]

theorem encDigits_of_ge (n : Nat) (h : 128 ≤ n) :
    encDigits n = (n % 128 + 128) :: encDigits (n / 128) := by
  rw [encDigits]
  have h0 : 0 < n / 128 := Nat.div_pos h (by omega)
  simp [h0, Nat.pos_iff_ne_zero.mp h0]

theorem encDigits_pos (n : Nat) : 1 ≤ (encDigits n).length := by
  by_cases h : n < 128
  · rw [encDigits_of_lt n h]; simp
  · rw [encDigits_of_ge n (by omega)]; simp

theorem encDigits_length (n : Nat) (h : n < 128 * 128 * 128 * 128) :
    (encDigits n).length = remLenBytes n := by
  by_cases h1 : n < 128
  · rw [encDigits_of_lt n h1, remLenBytes]
    simp [h1]
  · rw [encDigits_of_ge n (by omega)]
    by_cases h2 : n < 128 * 128
    · rw [encDigits_of_lt (n / 128) (by omega), remLenBytes]
      simp [h1, h2]
    · rw [encDigits_of_ge (n / 128) (by omega)]
      by_cases h3 : n < 128 * 128 * 128
      · rw [encDigits_of_lt (n / 128 / 128) (by omega), remLenBytes]
        simp [h1, h2, h3]
      · rw [encDigits_of_ge (n / 128 / 128) (by omega),
          encDigits_of_lt (n / 128 / 128 / 128) (by omega), remLenBytes]
        simp [h1, h2, h3]

theorem encodeLengthAux_eq_encDigits :
    ∀ mlen buf, buf.length + (encDigits mlen).length ≤ 4 →
      encodeLengthAux mlen buf = buf ++ encDigits mlen := by
  intro mlen
  induction mlen using Nat.strong_induction_on with
  | _ mlen ih =>
    intro buf hlen
    have hpos := encDigits_pos mlen
    rw [encodeLengthAux]
    have hguard : ¬ buf.length + 1 > MAX_ENCODED_BYTES := by
      simp only [MAX_ENCODED_BYTES]; omega
    simp only [hguard, if_false]
    by_cases h : mlen / 128 = 0
    · have h128 : mlen < 128 := by
        by_contra h'
        exact absurd h (Nat.pos_iff_ne_zero.mp (Nat.div_pos (by omega) (by omega)))
      rw [encDigits_of_lt mlen h128]
      simp [h, Nat.mod_eq_of_lt h128]
    · have hm : 0 < mlen / 128 := Nat.pos_of_ne_zero h
      have h128 : 128 ≤ mlen := by
        by_contra h'
        rw [Nat.div_eq_of_lt (by omega)] at hm
        omega
      simp only [h, dite_false, hm, if_pos]
      rw [encDigits_of_ge mlen h128] at hlen ⊢
      rw [ih (mlen / 128) (Nat.div_lt_self (by omega) (by omega))
        (buf ++ [mlen % 128 + 128]) (by simp at hlen ⊢; omega)]
      simp

theorem decodeLengthAux_encDigits :
    ∀ mlen j value len extra, j + (encDigits mlen).length ≤ 4 →
      decodeLengthAux (encDigits mlen ++ extra) (128 ^ j) value len =
        .ok (value + mlen * 128 ^ j, len + (encDigits mlen).length, extra) := by
  intro mlen
  induction mlen using Nat.strong_induction_on with
  | _ mlen ih =>
    intro j value len extra hlen
    have hpos := encDigits_pos mlen
    have hj : j ≤ 3 := by omega
    have hmult : ¬ MAX_ENCODED_SIZE < 128 ^ j := by
      have : (128 : Nat) ^ j ≤ 128 ^ 3 := Nat.pow_le_pow_right (by omega) hj
      simp only [MAX_ENCODED_SIZE]
      norm_num at this ⊢
      omega
    by_cases h : mlen < 128
    · rw [encDigits_of_lt mlen h] at hlen ⊢
      simp only [List.cons_append, List.nil_append, decodeLengthAux]
      have hb : mlen % 256 < 128 := by omega
      simp only [hmult, if_false, hb, if_true, Nat.mod_eq_of_lt h]
      simp
    · have h128 : 128 ≤ mlen := by omega
      rw [encDigits_of_ge mlen h128] at hlen ⊢
      have hd : mlen % 128 < 128 := Nat.mod_lt _ (by omega)
      simp only [List.cons_append, decodeLengthAux]
      have hb1 : (mlen % 128 + 128) % 128 = mlen % 128 := by omega
      have hb2 : ¬ (mlen % 128 + 128) % 256 < 128 := by omega
      simp only [hb1, hb2, if_false, hmult]
      have hj2 : j + 1 + (encDigits (mlen / 128)).length ≤ 4 := by
        simp at hlen; omega
      have hrec := ih (mlen / 128) (Nat.div_lt_self (by omega) (by omega))
        (j + 1) (value + mlen % 128 * 128 ^ j) (len + 1) extra hj2
      rw [pow_succ] at hrec
      simp only [List.append_eq]
      rw [hrec]
      have key : mlen % 128 * 128 ^ j + mlen / 128 * (128 ^ j * 128)
          = mlen * 128 ^ j := by
        have h0 : mlen % 128 + 128 * (mlen / 128) = mlen := Nat.mod_add_div mlen 128
        calc mlen % 128 * 128 ^ j + mlen / 128 * (128 ^ j * 128)
            = (mlen % 128 + 128 * (mlen / 128)) * 128 ^ j := by ring
          _ = mlen * 128 ^ j := by rw [h0]
      simp only [Except.ok.injEq, Prod.mk.injEq, List.length_cons]
      exact ⟨by omega, by omega, trivial⟩

/-- C1: for every `n` in `[0, 268435455]`, `encode_length` into an empty
buffer emits exactly `remLenBytes n` bytes, that count lies in `{1,2,3,4}`
and is minimal (the least positive `m` with `n < 128 ^ m`), and
`decode_length` on those bytes returns the pair `(n, remLenBytes n)` with
no bytes left over. -/
theorem remaining_length_encode_decode (n : Nat) (h : n ≤ 268435455) :
    (encode_length n []).length = remLenBytes n ∧
    1 ≤ remLenBytes n ∧ remLenBytes n ≤ 4 ∧
    n < 128 ^ remLenBytes n ∧
    (∀ m, 0 < m → n < 128 ^ m → remLenBytes n ≤ m) ∧
    decode_length (encode_length n []) = .ok (n, remLenBytes n, []) := by
  have hbound : n < 128 * 128 * 128 * 128 := by omega
  have hlen := encDigits_length n hbound
  have hle : remLenBytes n ≤ 4 := by
    unfold remLenBytes
    split_ifs <;> omega
  have hge : 1 ≤ remLenBytes n := by
    unfold remLenBytes
    split_ifs <;> omega
  have henc : encode_length n [] = encDigits n := by
    unfold encode_length
    rw [encodeLengthAux_eq_encDigits n [] (by simp; omega)]
    simp
  refine ⟨by rw [henc, hlen], hge, hle, ?_, ?_, ?_⟩
  · unfold remLenBytes
    split_ifs with h1 h2 h3 <;> norm_num <;> omega
  · intro m hm hlt
    match m, hm with
    | 1, _ =>
      have h' : n < 128 := by norm_num at hlt; omega
      unfold remLenBytes; split_ifs <;> omega
    | 2, _ =>
      have h' : n < 16384 := by norm_num at hlt; omega
      unfold remLenBytes; split_ifs <;> omega
    | 3, _ =>
      have h' : n < 2097152 := by norm_num at hlt; omega
      unfold remLenBytes; split_ifs <;> omega
    | (k+4), _ => omega
  · rw [henc]
    unfold decode_length
    have := decodeLengthAux_encDigits n 0 0 0 [] (by omega)
    simp only [List.append_nil, pow_zero, Nat.mul_one, Nat.zero_add] at this
    rw [this, hlen]

/-- Witness for C1 at `n = 321`. -/
theorem remaining_length_encode_decode_witness :
    321 ≤ 268435455 ∧
    ((encode_length 321 []).length = remLenBytes 321 ∧
    1 ≤ remLenBytes 321 ∧ remLenBytes 321 ≤ 4 ∧
    321 < 128 ^ remLenBytes 321 ∧
    (∀ m, 0 < m → 321 < 128 ^ m → remLenBytes 321 ≤ m) ∧
    decode_length (encode_length 321 []) = .ok (321, remLenBytes 321, [])) :=
  ⟨by norm_num, remaining_length_encode_decode 321 (by norm_num)⟩


theorem connect_guard_always_true (pv : ProtocalVersion) :
    pv ≠ .Four ∨ pv ≠ .Five := by
  cases pv <;> simp


/-- C2: the claim says a CONNECT with protocol name `"MQTT"` and protocol
level byte 4 is not rejected with `UnacceptableProtocolLevel` or
`UnknownProtocol`.  The code disagrees: the guard
`protocol_version != Four || protocol_version != Five` in
`VariableHeader::unpack` is true for every version byte, so even the
repository's own `test_unpack_connect_packet` vector — name `MQTT`, level
4 — is rejected with `UnacceptableProtocolLevel` (that test expects
success, so the code contradicts its own test suite). -/
theorem connect_level4_rejected_code_bug :
    Packet.unpack [0x10, 0x1e, 0x00, 0x04, 0x4d, 0x51, 0x54, 0x54, 0x04,
        0xc2, 0x00, 0x3c, 0x00, 0x04, 0x6d, 0x79, 0x50, 0x79, 0x00, 0x06,
        0x63, 0x6c, 0x69, 0x65, 0x6e, 0x74, 0x00, 0x04, 0x70, 0x61, 0x73,
        0x73] =
      .error (.mqtt .UnacceptableProtocolLevel) := by rfl

/-- C7: the claim says decoding a SUBSCRIBE fails with `MalformedHeader`
whenever the fixed-header flag nibble is not `0010`.  The code's check
`!dup && qos != AtLeast && retain` rejects only `retain` set with `dup`
unset and QoS ≠ 1: the flag nibble `0000` (first byte `0x80`, so DUP=0,
QoS=0, RETAIN=0) passes it, and this well-formed SUBSCRIBE — packet id 10,
one tuple (`"a"`, QoS 1) — decodes successfully instead of failing. -/
theorem subscribe_flags_zero_accepted :
    Packet.unpack [0x80, 0x06, 0x00, 0x0A, 0x00, 0x01, 0x61, 0x01] =
      .ok (⟨⟨0x80, 6, 1⟩, .subscribe 10 [([0x61], .AtLeast)]⟩, 8) ∧
    (0x80 : Nat) % 16 = 0 ∧ (0 : Nat) ≠ 2 := by
  exact ⟨by rfl, by norm_num⟩

/-- Counterexample to C3 as stated: the subscription whose filter is `#`
(first level `#`) is returned by `SubscriptionTree::get` for the topic
`$SYS/x` (first level starting with `$`) — the trie lookup in
`topic_heir.rs` implements no `$`-suppression. -/
theorem subscription_tree_matches_dollar_topic :
    (SubscriptionTree.new.insert "#".toList ⟨.AtMost, 7, 9, false, false⟩).map
      (fun t => t.get "$SYS/x".toList) = .ok (.ok [(7, 9, .AtMost)]) := by rfl

/-- Counterexample to C4 as stated: after client channel 5 subscribes to
both `a/b` and `a/+`, `Topics::get_matches "a/b"` returns that client's
subscriber entry once per matching filter — the `core/topic.rs` lookup
performs no deduplication. -/
theorem topics_get_matches_duplicates_client :
    ¬ (subscriberIds (((Topics.new.subscribe "a/b".toList .AtMost "A".toList 5).subscribe
        "a/+".toList .AtMost "A".toList 5).get_matches "a/b".toList)).Nodup := by decide

/-- Counterexample to C5 as stated: with one subscriber granted QoS 2 on
topic `t`, `App::publish` enqueues a PUBLISH whose fixed-header byte is 52
(QoS bits = 2, the granted QoS) for every publish — the `Publish` command
carries no publish QoS at all — whereas the claim requires
`min(granted, publish-qos)`, which for a QoS-0 publish is QoS 0. -/
theorem publish_qos_not_min :
    App.publish
        ⟨[("A".toList, ⟨11, 5⟩)],
          (SubscriptionTree.new.insert "t".toList
              ⟨.Exactly, 11, 5, false, false⟩).toOption.getD SubscriptionTree.new⟩
        "t".toList [104, 105] =
      [(5, ⟨52, "t".toList, none, [104, 105]⟩)] ∧
    QosLevel.tryFrom (52 % 8 / 2) = .ok .Exactly ∧
    minQos .Exactly .AtMost = .AtMost ∧
    QosLevel.Exactly ≠ QosLevel.AtMost := by
  refine ⟨by rfl, by rfl, by rfl, by decide⟩

/-- Counterexample to C9 as stated: the claim schedules the keepalive
deadline at `1.5 × K` and says `K = 0` disables it.  The code sets
`keepalive_duration = K + 4`: a CONNECT with `K = 60` schedules 64 seconds
(not 90), a CONNECT with `K = 0` schedules 4 seconds (not no deadline),
and a valid PUBLISH does not reset the timer at all. -/
theorem keepalive_not_one_point_five :
    (readKeepaliveStep ReadState.init (.connect 60)).2 = some 64 ∧
    (64 : Nat) ≠ 90 ∧
    (readKeepaliveStep ReadState.init (.connect 0)).2 = some 4 ∧
    (some 4 ≠ (none : Option Nat)) ∧
    (readKeepaliveStep ⟨64, true⟩ .publish).2 = none := by
  refine ⟨by rfl, by decide, by rfl, by decide, by rfl⟩

/-- C9 amended: on a first CONNECT with keepalive `K` the read loop sets
the keepalive duration to `K + 4` seconds and schedules the deadline that
far ahead (so `K = 0` yields a 4-second deadline rather than disabling
it); a PINGREQ re-schedules the deadline at the current duration; no other
packet resets the timer; before any CONNECT the deadline is the initial 60
seconds. -/
theorem keepalive_plus_four_schedule (s : ReadState) (k : Nat)
    (h : s.seen_connect_packet = false) :
    readKeepaliveStep s (.connect k) = (⟨k + 4, true⟩, some (k + 4)) ∧
    readKeepaliveStep s .pingReq = (s, some s.keepalive_duration) ∧
    (∀ p : InPacket, (∀ k', p ≠ .connect k') → p ≠ .pingReq →
      (readKeepaliveStep s p).2 = none) ∧
    ReadState.init.keepalive_duration = initialKeepaliveDeadline := by
  refine ⟨?_, rfl, ?_, rfl⟩
  · simp [readKeepaliveStep, h]
  · intro p hc hp
    cases p with
    | connect k' => exact absurd rfl (hc k')
    | pingReq => exact absurd rfl hp
    | _ => rfl

/-- Witness for C9's amended theorem at the initial state and `K = 60`. -/
theorem keepalive_plus_four_schedule_witness :
    ReadState.init.seen_connect_packet = false ∧
    (readKeepaliveStep ReadState.init (.connect 60) = (⟨64, true⟩, some 64) ∧
    readKeepaliveStep ReadState.init .pingReq =
      (ReadState.init, some ReadState.init.keepalive_duration) ∧
    (∀ p : InPacket, (∀ k', p ≠ .connect k') → p ≠ .pingReq →
      (readKeepaliveStep ReadState.init p).2 = none) ∧
    ReadState.init.keepalive_duration = initialKeepaliveDeadline) :=
  ⟨rfl, keepalive_plus_four_schedule ReadState.init 60 rfl⟩

/-- Counterexample to C10 as stated: a SUBSCRIBE whose declared remaining
length is 1 but whose payload still contains a packet id makes the
`len -= size_of::<u16>()` subtraction underflow (`1 - 2` on `usize`): a
panic in debug builds, a wrap in release builds — decoding is not total. -/
theorem unpack_subscribe_underflows :
    Packet.unpack [0x82, 0x01, 0x00, 0x07] = .error .underflow := by rfl

/-- C3 amended: the `$`-suppression holds for the `Pattern::matches` lookup
(`src/core/pattern.rs`, used by `Topics::get_matches`) — a filter whose
first level is `+` or `#` never matches a topic whose first level begins
with `$`, the suppression applying at the first level only (`test/+` does
match `test/$SYS`) — but the `SubscriptionTree::get` lookup in
`topic_heir.rs` performs no such suppression (see
`subscription_tree_matches_dollar_topic`). -/
theorem pattern_matches_suppresses_dollar (topic filter t0 : Str)
    (hf : (splitInclusive filter).head? = some ['+'] ∨
      (splitInclusive filter).head? = some ['#'])
    (ht : (splitInclusive topic).head? = some t0)
    (hd : startsWithDollar t0 = true) :
    Pattern.matches topic filter = false ∧
    Pattern.matches "test/$SYS".toList "test/+".toList = true := by
  constructor
  · unfold Pattern.matches
    cases hsp : splitInclusive topic with
    | nil => rw [hsp] at ht; simp at ht
    | cons a ts =>
      rw [hsp] at ht
      simp only [List.head?_cons, Option.some.injEq] at ht
      subst ht
      cases hspf : splitInclusive filter with
      | nil => rw [hspf] at hf; simp at hf
      | cons p ps =>
        rw [hspf] at hf
        simp only [List.head?_cons, Option.some.injEq] at hf
        obtain ⟨c, r, rfl⟩ : ∃ c r, a = c :: r := by
          cases a with
          | nil => simp [startsWithDollar] at hd
          | cons c r => exact ⟨c, r, rfl⟩
        have hc : c = '$' := by simpa [startsWithDollar] using hd
        subst hc
        rcases hf with hp | hp <;> subst hp <;>
          simp [matchesAux, startsWithDollar]
  · decide

/-- Witness for C3's amended theorem at topic `$SYS/x`, filter `+/x`. -/
theorem pattern_matches_suppresses_dollar_witness :
    ((splitInclusive "+/x".toList).head? = some ['+'] ∨
      (splitInclusive "+/x".toList).head? = some ['#']) ∧
    (splitInclusive "$SYS/x".toList).head? = some "$SYS".toList ∧
    startsWithDollar "$SYS".toList = true ∧
    (Pattern.matches "$SYS/x".toList "+/x".toList = false ∧
      Pattern.matches "test/$SYS".toList "test/+".toList = true) :=
  ⟨Or.inl (by decide), by decide, by decide,
    pattern_matches_suppresses_dollar "$SYS/x".toList "+/x".toList
      "$SYS".toList (Or.inl (by decide)) (by decide) (by decide)⟩

theorem pushUniq_nodup (acc : List SubEntry) (x : SubscriptionLeaf)
    (h : (entryIds acc).Nodup) : (entryIds (pushUniq acc x)).Nodup := by
  unfold pushUniq
  split_ifs with hx
  · exact h
  · have hnot : x.identifier ∉ entryIds acc := by
      intro hmem
      apply hx
      rw [List.any_eq_true]
      simp only [entryIds, List.mem_map] at hmem
      obtain ⟨e, he, heq⟩ := hmem
      exact ⟨e, he, by simp [heq]⟩
    unfold entryIds at *
    rw [List.map_append, List.nodup_append]
    refine ⟨h, List.nodup_singleton _, ?_⟩
    intro z hz hz2
    simp at hz2
    subst hz2
    exact hnot hz

theorem pushAllUniq_nodup (xs : List SubscriptionLeaf) :
    ∀ acc, (entryIds acc).Nodup → (entryIds (pushAllUniq acc xs)).Nodup := by
  induction xs with
  | nil => intro acc h; exact h
  | cons x xs ih =>
    intro acc h
    have : pushAllUniq acc (x :: xs) = pushAllUniq (pushUniq acc x) xs := rfl
    rw [this]
    exact ih _ (pushUniq_nodup acc x h)

theorem hashContribution_nodup (c : Option SubHier) (share : Option Str)
    (acc : List SubEntry) (h : (entryIds acc).Nodup) :
    (entryIds (hashContribution c share acc)).Nodup := by
  unfold hashContribution
  cases c with
  | none => exact h
  | some child =>
    dsimp only
    cases share with
    | none => exact pushAllUniq_nodup _ _ h
    | some sh =>
      dsimp only
      cases alookup child.shared sh with
      | none => exact h
      | some s => exact pushAllUniq_nodup _ _ h

theorem subHier_get_nodup (fuel : Nat) :
    ∀ (h : SubHier) (toks : List Str) (acc : List SubEntry) (share : Option Str),
      (entryIds acc).Nodup →
      (entryIds (SubHier.get fuel h toks acc share).1).Nodup := by
  induction fuel with
  | zero =>
    intro h toks acc share hacc
    exact hacc
  | succ fuel ih =>
    intro h toks acc share hacc
    rw [SubHier.get.eq_def]
    dsimp only
    apply hashContribution_nodup
    cases toks with
    | cons topic iter =>
      dsimp only
      cases alookup h.children topic with
      | some child =>
        dsimp only
        cases alookup h.children ['+'] with
        | some child2 => exact ih _ _ _ _ (ih _ _ _ _ hacc)
        | none => exact ih _ _ _ _ hacc
      | none =>
        dsimp only
        cases alookup h.children ['+'] with
        | some child2 => exact ih _ _ _ _ hacc
        | none => exact hacc
    | nil =>
      dsimp only
      cases share with
      | some sh =>
        dsimp only
        cases alookup h.shared sh with
        | some s => exact pushAllUniq_nodup _ _ hacc
        | none => exact hacc
      | none => exact pushAllUniq_nodup _ _ hacc

theorem treeGetStep_nodup (root : List (Str × SubHier))
    (filter_list : List Str) (sharename : Option Str) :
    (entryIds (treeGetStep root filter_list sharename).1).Nodup := by
  unfold treeGetStep
  cases filter_list with
  | nil => simp [entryIds]
  | cons topic iter =>
    dsimp only
    have h0 : (entryIds ([] : List SubEntry)).Nodup := by simp [entryIds]
    cases alookup root topic with
    | some child =>
      dsimp only
      cases alookup root ['+'] with
      | some child2 =>
        exact subHier_get_nodup _ _ _ _ _ (subHier_get_nodup _ _ _ _ _ h0)
      | none => exact subHier_get_nodup _ _ _ _ _ h0
    | none =>
      dsimp only
      cases alookup root ['+'] with
      | some child2 => exact subHier_get_nodup _ _ _ _ _ h0
      | none => exact h0

/-- C4 amended: after any sequence of subscribe and unsubscribe operations
(indeed for every trie state), the `SubscriptionTree::get` match result
contains each identifier at most once — every push is guarded by
`!subscribers.iter().any(|e| e.0 == x.identifier)` — whereas
`Topics::get_matches` in `core/topic.rs` performs no deduplication across
filters, so there a client subscribed through several matching filters
appears once per filter (see `topics_get_matches_duplicates_client`). -/
theorem subscription_tree_get_dedup (tree : SubscriptionTree) (topic : Str)
    (res : List SubEntry) (h : tree.get topic = .ok res) :
    (entryIds res).Nodup := by
  unfold SubscriptionTree.get at h
  cases htok : tokenise_topic topic with
  | error e => rw [htok] at h; exact absurd h (by simp)
  | ok fl =>
    rw [htok] at h
    obtain ⟨filter_list, sharename⟩ := fl
    dsimp only at h
    have hres := Except.ok.inj h
    rw [← hres]
    exact hashContribution_nodup _ _ _ (treeGetStep_nodup _ _ _)

/-- Witness for C4's amended theorem: identifier 11 subscribed through both
`a/b` and `a/+`, matched once for the topic `a/b`. -/
theorem subscription_tree_get_dedup_witness :
    ((((SubscriptionTree.new.insert "a/b".toList
          ⟨.AtMost, 11, 5, false, false⟩).toOption.getD
        SubscriptionTree.new).insert "a/+".toList
          ⟨.AtLeast, 11, 5, false, false⟩).toOption.getD
        SubscriptionTree.new).get "a/b".toList = .ok [(11, 5, .AtMost)] ∧
    (entryIds [(11, 5, .AtMost)]).Nodup :=
  ⟨by rfl,
    subscription_tree_get_dedup
      ((((SubscriptionTree.new.insert "a/b".toList
            ⟨.AtMost, 11, 5, false, false⟩).toOption.getD
          SubscriptionTree.new).insert "a/+".toList
            ⟨.AtLeast, 11, 5, false, false⟩).toOption.getD
          SubscriptionTree.new)
      "a/b".toList [(11, 5, .AtMost)] (by rfl)⟩

/-- C5 amended: every matched recipient is enqueued a PUBLISH whose
fixed-header QoS equals that recipient's granted QoS; the publish QoS plays
no role — the `Command::Publish` the broker receives carries only topic and
payload. -/
theorem publish_uses_granted_qos (a : App) (topic : Str) (payload : List Nat)
    (subs : List SubEntry) (i b : Nat) (g : QosLevel)
    (hs : a.subscriptions.get topic = .ok subs)
    (hm : (i, b, g) ∈ subs) :
    (b, ⟨make_publish_header g, topic, none, payload⟩) ∈
      a.publish topic payload ∧
    QosLevel.tryFrom (make_publish_header g % 8 / 2) = .ok g := by
  constructor
  · unfold App.publish
    rw [hs]
    exact List.mem_map.mpr ⟨(i, b, g), hm, rfl⟩
  · cases g <;> rfl

/-- Witness for C5's amended theorem: the QoS-2 subscriber of
`publish_qos_not_min` receives its PUBLISH at QoS 2. -/
theorem publish_uses_granted_qos_witness :
    (⟨[("A".toList, ⟨11, 5⟩)],
        (SubscriptionTree.new.insert "t".toList
            ⟨.Exactly, 11, 5, false, false⟩).toOption.getD
          SubscriptionTree.new⟩ : App).subscriptions.get "t".toList =
      .ok [(11, 5, .Exactly)] ∧
    ((11, 5, QosLevel.Exactly) ∈ [((11 : Nat), (5 : Nat), QosLevel.Exactly)]) ∧
    ((5, ⟨make_publish_header .Exactly, "t".toList, none, [104, 105]⟩) ∈
      App.publish
        ⟨[("A".toList, ⟨11, 5⟩)],
          (SubscriptionTree.new.insert "t".toList
              ⟨.Exactly, 11, 5, false, false⟩).toOption.getD
            SubscriptionTree.new⟩ "t".toList [104, 105] ∧
      QosLevel.tryFrom (make_publish_header .Exactly % 8 / 2) = .ok .Exactly) :=
  ⟨by rfl, by decide,
    publish_uses_granted_qos
      ⟨[("A".toList, ⟨11, 5⟩)],
        (SubscriptionTree.new.insert "t".toList
            ⟨.Exactly, 11, 5, false, false⟩).toOption.getD
          SubscriptionTree.new⟩
      "t".toList [104, 105] [(11, 5, .Exactly)] 11 5 .Exactly (by rfl)
      (by decide)⟩

theorem mem_aupdate_keys {α : Type} (l : List (Str × α)) (k x : Str) (v : α)
    (h : x ∈ (aupdate l k v).map (·.1)) : x ∈ l.map (·.1) ∨ x = k := by
  induction l with
  | nil =>
    simp [aupdate] at h
    exact Or.inr h
  | cons kv rest ih =>
    obtain ⟨k', v'⟩ := kv
    by_cases hk : k' = k
    · rw [aupdate] at h
      simp only [if_pos hk] at h
      simp only [List.map_cons, List.mem_cons] at h
      rcases h with h | h
      · exact Or.inr h
      · simp only [List.map_cons, List.mem_cons]
        exact Or.inl (Or.inr h)
    · rw [aupdate] at h
      simp only [if_neg hk] at h
      simp only [List.map_cons, List.mem_cons] at h ⊢
      rcases h with h | h
      · exact Or.inl (Or.inl h)
      · rcases ih h with h' | h'
        · exact Or.inl (Or.inr h')
        · exact Or.inr h'

theorem aupdate_keys_nodup {α : Type} (l : List (Str × α)) (k : Str) (v : α)
    (h : (l.map (·.1)).Nodup) : ((aupdate l k v).map (·.1)).Nodup := by
  induction l with
  | nil => simp [aupdate]
  | cons kv rest ih =>
    obtain ⟨k', v'⟩ := kv
    simp only [List.map_cons, List.nodup_cons] at h
    rw [aupdate]
    split_ifs with hk
    · subst hk
      simp only [List.map_cons, List.nodup_cons]
      exact h
    · simp only [List.map_cons, List.nodup_cons]
      refine ⟨?_, ih h.2⟩
      intro hmem
      rcases mem_aupdate_keys rest k k' v hmem with h' | h'
      · exact h.1 h'
      · exact hk h'

theorem aremove_sublist {α : Type} (l : List (Str × α)) (k : Str) :
    (aremove l k).Sublist l := by
  induction l with
  | nil => simp [aremove]
  | cons kv rest ih =>
    obtain ⟨k', v'⟩ := kv
    by_cases hk : k' = k
    · rw [aremove]
      simp only [if_pos hk]
      exact List.sublist_cons_self _ _
    · rw [aremove]
      simp only [if_neg hk]
      exact ih.cons₂ _

theorem aremove_keys_nodup {α : Type} (l : List (Str × α)) (k : Str)
    (h : (l.map (·.1)).Nodup) : ((aremove l k).map (·.1)).Nodup :=
  h.sublist ((aremove_sublist l k).map _)

/-- C6: the client registry holds at most one live session per client id
after every broker command (with nodup keys preserved by every `App.step`),
and when a `RegisterClient` arrives for a client id that already has a
session, the command's effect trace sends `ClientEvent::Disconnect` on the
existing session's outbound channel strictly before the new outbound
producer replaces the old one. -/
theorem registry_single_session (a : App) (cmd : Command) (fresh : Nat)
    (hw : (sessionKeys a).Nodup) :
    (sessionKeys (App.step a cmd fresh).1).Nodup ∧
    (∀ cid chan clean existing,
      cmd = Command.registerClient cid chan clean →
      alookup a.sessions cid = some existing →
      (App.step a cmd fresh).2 =
        [BrokerAction.sendEvent existing.bridge .disconnect,
          BrokerAction.setBridge cid chan]) := by
  constructor
  · cases cmd with
    | registerClient id chan clean =>
      unfold App.step App.connect sessionKeys
      dsimp only
      cases alookup a.sessions id <;> dsimp only <;>
        exact aupdate_keys_nodup _ _ _ hw
    | subscribe c topics =>
      unfold App.step App.subscribe sessionKeys at *
      dsimp only at *
      cases alookup a.sessions c <;> dsimp only <;> exact hw
    | unsubscribe c topics =>
      unfold App.step App.unsubscribe sessionKeys at *
      dsimp only at *
      cases alookup a.sessions c <;> dsimp only <;> exact hw
    | publish t p => exact hw
    | disconnectClient cid =>
      unfold App.step App.disconnect sessionKeys at *
      dsimp only at *
      exact aremove_keys_nodup _ _ hw
    | exit => exact hw
  · intro cid chan clean existing hcmd hlook
    subst hcmd
    unfold App.step App.connect
    dsimp only
    rw [hlook]
    rfl

/-- Witness for C6: re-registering client `x` (bridge 5) with a new
channel 6. -/
theorem registry_single_session_witness :
    (sessionKeys ⟨[("x".toList, ⟨1, 5⟩)], SubscriptionTree.new⟩).Nodup ∧
    ((sessionKeys (App.step ⟨[("x".toList, ⟨1, 5⟩)], SubscriptionTree.new⟩
        (.registerClient "x".toList 6 false) 2).1).Nodup ∧
      (App.step ⟨[("x".toList, ⟨1, 5⟩)], SubscriptionTree.new⟩
          (.registerClient "x".toList 6 false) 2).2 =
        [BrokerAction.sendEvent 5 .disconnect,
          BrokerAction.setBridge "x".toList 6]) := by
  have h := registry_single_session
    ⟨[("x".toList, ⟨1, 5⟩)], SubscriptionTree.new⟩
    (.registerClient "x".toList 6 false) 2 (by simp [sessionKeys])
  exact ⟨by simp [sessionKeys],
    h.1, h.2 "x".toList 6 false ⟨1, 5⟩ rfl (by rfl)⟩


theorem unpack_string_mqtt (tail : List Nat) :
    unpack_string (0 :: 4 :: 77 :: 81 :: 84 :: 84 :: tail) =
      .ok ([77, 81, 84, 84], tail) := rfl

theorem unpack_string_empty (tail : List Nat) :
    unpack_string (0 :: 0 :: tail) = .ok ([], tail) := rfl

/-- C8: decoding a CONNECT (via `ConnectHeader::from_bytes`) whose ClientId
field is the empty string succeeds and yields the freshly generated
identifier (the random `uuid::Uuid::new_v4().to_string()`, passed in as
`freshId`) when the CleanSession flag is set — stated with the
will/username/password flags clear, so the packet carries no further
fields — and fails with `ClientIdentifierRejected` (the error answered
with CONNACK rc 0x02) when CleanSession is not set.  The identical
empty-ClientId logic in `VariableHeader::unpack` (packets/mod.rs 386-397)
is unreachable because of the protocol-level bug recorded under C2. -/
theorem connect_empty_client_id (freshId : List Nat) (fl ka1 ka2 : Nat)
    (rest : List Nat) :
    (Flags.clean_session fl = true → Flags.will fl = false →
      Flags.has_username fl = false → Flags.has_password fl = false →
      ConnectHeader.from_bytes freshId (connectBytesEmptyCid fl ka1 ka2 rest) =
        .ok (⟨fl, ka1 * 256 + ka2, freshId, [], [], [], [], 4⟩, rest)) ∧
    (Flags.clean_session fl = false →
      ConnectHeader.from_bytes freshId (connectBytesEmptyCid fl ka1 ka2 rest) =
        .error .ClientIdentifierRejected) := by
  have hbytes : connectBytesEmptyCid fl ka1 ka2 rest =
      0 :: 4 :: 77 :: 81 :: 84 :: 84 :: 4 :: fl :: ka1 :: ka2 :: 0 :: 0 :: rest := by
    simp [connectBytesEmptyCid, mqttName]
  constructor
  · intro h1 h2 h3 h4
    rw [hbytes]
    unfold ConnectHeader.from_bytes
    simp only [unpack_string_mqtt, unpack_u16, unpack_string_empty]
    simp [mqttName, h1, h2, h3, h4]
  · intro h1
    rw [hbytes]
    unfold ConnectHeader.from_bytes
    simp only [unpack_string_mqtt, unpack_u16, unpack_string_empty]
    simp [mqttName, h1]

/-- Witness for C8 at connect-flags byte 2 (CleanSession only), keepalive
60, fresh id `[102]`. -/
theorem connect_empty_client_id_witness :
    Flags.clean_session 2 = true ∧ Flags.will 2 = false ∧
    Flags.has_username 2 = false ∧ Flags.has_password 2 = false ∧
    ConnectHeader.from_bytes [102] (connectBytesEmptyCid 2 0 60 []) =
      .ok (⟨2, 0 * 256 + 60, [102], [], [], [], [], 4⟩, []) :=
  ⟨by decide, by decide, by decide, by decide,
    (connect_empty_client_id [102] 2 0 60 []).1 (by decide) (by decide)
      (by decide) (by decide)⟩

theorem unpack_string_encode (t tail : List Nat) (hlen : t.length < 65536) :
    unpack_string (t.length / 256 :: t.length % 256 :: (t ++ tail)) =
      (if validUTF8 t then .ok (t, tail) else .error .MalformedString) := by
  unfold unpack_string unpack_u16
  dsimp only
  have hl : t.length / 256 * 256 + t.length % 256 = t.length := by omega
  rw [hl]
  unfold unpack_string_with_len
  by_cases h0 : t.length = 0
  · have ht : t = [] := List.length_eq_zero.mp h0
    subst ht
    rfl
  · rw [if_neg h0]
    rw [List.take_left, List.drop_left]

theorem subLoop_no_underflow (ts : List (List Nat × Nat)) :
    ∀ fuel acc extra, subTuplesSize ts ≤ fuel →
      (∀ tq ∈ ts, tq.1.length < 65536) →
      subLoop fuel (subTuplesSize ts) (encodeSubTuples ts ++ extra) acc ≠
        .error .underflow := by
  induction ts with
  | nil =>
    intro fuel acc extra hf hlen
    rw [subLoop.eq_def]
    simp [subTuplesSize]
  | cons tq ts ih =>
    intro fuel acc extra hf hlen
    obtain ⟨t, q⟩ := tq
    have hsz : subTuplesSize ((t, q) :: ts) = t.length + 3 + subTuplesSize ts := by
      simp [subTuplesSize]
    have htq : t.length < 65536 := hlen (t, q) (by simp)
    have hbytes : encodeSubTuples ((t, q) :: ts) ++ extra =
        t.length / 256 :: t.length % 256 ::
          (t ++ (q :: (encodeSubTuples ts ++ extra))) := by
      simp [encodeSubTuples, encodeSubTuple]
    rw [hsz] at hf ⊢
    rw [hbytes]
    rw [subLoop.eq_def]
    dsimp only
    rw [if_neg (by omega)]
    obtain ⟨fuel', rfl⟩ : ∃ f', fuel = f' + 1 := ⟨fuel - 1, by omega⟩
    dsimp only
    rw [unpack_string_encode t _ htq]
    by_cases hv : validUTF8 t
    · rw [if_pos hv]
      dsimp only
      rw [if_pos (by omega : t.length + 2 ≤ t.length + 3 + subTuplesSize ts)]
      cases hqq : QosLevel.tryFrom q with
      | error e => simp
      | ok qos =>
        dsimp only
        rw [if_pos (by omega : 1 ≤ t.length + 3 + subTuplesSize ts - (t.length + 2))]
        have harith : t.length + 3 + subTuplesSize ts - (t.length + 2) - 1 =
            subTuplesSize ts := by omega
        rw [harith]
        exact ih fuel' _ _ (by omega) (fun tq' h' => hlen tq' (by simp [h']))
    · rw [if_neg hv]
      simp

theorem unsubLoop_no_underflow (ts : List (List Nat)) :
    ∀ fuel acc extra, unsubTuplesSize ts ≤ fuel →
      (∀ t ∈ ts, t.length < 65536) →
      unsubLoop fuel (unsubTuplesSize ts) (encodeUnsubTuples ts ++ extra) acc ≠
        .error .underflow := by
  induction ts with
  | nil =>
    intro fuel acc extra hf hlen
    rw [unsubLoop.eq_def]
    simp [unsubTuplesSize]
  | cons t ts ih =>
    intro fuel acc extra hf hlen
    have hsz : unsubTuplesSize (t :: ts) = t.length + 2 + unsubTuplesSize ts := by
      simp [unsubTuplesSize]
    have htq : t.length < 65536 := hlen t (by simp)
    have hbytes : encodeUnsubTuples (t :: ts) ++ extra =
        t.length / 256 :: t.length % 256 ::
          (t ++ (encodeUnsubTuples ts ++ extra)) := by
      simp [encodeUnsubTuples, encodeUnsubTuple]
    rw [hsz] at hf ⊢
    rw [hbytes]
    rw [unsubLoop.eq_def]
    dsimp only
    rw [if_neg (by omega)]
    obtain ⟨fuel', rfl⟩ : ∃ f', fuel = f' + 1 := ⟨fuel - 1, by omega⟩
    dsimp only
    rw [if_pos (by omega : 2 ≤ t.length + 2 + unsubTuplesSize ts)]
    rw [unpack_string_encode t _ htq]
    by_cases hv : validUTF8 t
    · rw [if_pos hv]
      dsimp only
      rw [if_pos (by omega : t.length ≤ t.length + 2 + unsubTuplesSize ts - 2)]
      have harith : t.length + 2 + unsubTuplesSize ts - 2 - t.length =
          unsubTuplesSize ts := by omega
      rw [harith]
      exact ih fuel' _ _ (by omega) (fun t' h' => hlen t' (by simp [h']))
    · rw [if_neg hv]
      simp

theorem unpackPublish_no_underflow_of_len (fixed : FixedHeader)
    (bs topic bs1 : List Nat) (qos : QosLevel)
    (hts : unpack_string bs = .ok (topic, bs1))
    (hqos : fixed.getQos = .ok qos)
    (hrem : 2 + topic.length + (if 0 < qos.toU8 then 2 else 0) ≤
      fixed.remaining_len) :
    unpackPublish fixed bs ≠ .error .underflow := by
  unfold unpackPublish
  rw [hts, hqos]
  dsimp only
  by_cases hq : 0 < qos.toU8
  · rw [if_pos hq] at hrem
    rw [if_pos hq]
    cases unpack_u16 bs1 with
    | error e => simp
    | ok p =>
      obtain ⟨id, r⟩ := p
      dsimp only
      unfold usizeSub
      rw [if_pos (by omega : 2 ≤ fixed.remaining_len)]
      dsimp only
      rw [if_pos (by omega : 2 + topic.length ≤ fixed.remaining_len - 2)]
      simp [unpack_bytes]
  · rw [if_neg hq] at hrem
    rw [if_neg hq]
    dsimp only
    unfold usizeSub
    rw [if_pos (by omega : 2 + topic.length ≤ fixed.remaining_len)]
    simp [unpack_bytes]

/-- C10 amended: the length subtractions in the PUBLISH, SUBSCRIBE and
UNSUBSCRIBE decoding branches *can* underflow when the declared remaining
length is smaller than the decoded fields (see
`unpack_subscribe_underflows`), but they cannot underflow when the declared
remaining length is consistent with the encoded fields: for PUBLISH when it
is at least `2 + topic-length` plus 2 more if QoS > 0, and for
SUBSCRIBE/UNSUBSCRIBE when the payload after the packet id is a
wire-formed tuple list whose size the remaining length matches — then
decoding returns `Ok` or an ordinary `MqttError`. -/
theorem unpack_no_underflow_when_lengths_consistent :
    (∀ (fixed : FixedHeader) (bs topic bs1 : List Nat) (qos : QosLevel),
      unpack_string bs = .ok (topic, bs1) →
      fixed.getQos = .ok qos →
      2 + topic.length + (if 0 < qos.toU8 then 2 else 0) ≤
        fixed.remaining_len →
      unpackPublish fixed bs ≠ .error .underflow) ∧
    (∀ (fixed : FixedHeader) (p1 p2 : Nat) (ts : List (List Nat × Nat))
      (extra : List Nat),
      fixed.remaining_len = 2 + subTuplesSize ts →
      (∀ tq ∈ ts, tq.1.length < 65536) →
      unpackSubscribe fixed (p1 :: p2 :: (encodeSubTuples ts ++ extra)) ≠
        .error .underflow) ∧
    (∀ (fixed : FixedHeader) (p1 p2 : Nat) (ts : List (List Nat))
      (extra : List Nat),
      fixed.remaining_len = 2 + unsubTuplesSize ts →
      (∀ t ∈ ts, t.length < 65536) →
      unpackUnsubscribe fixed (p1 :: p2 :: (encodeUnsubTuples ts ++ extra)) ≠
        .error .underflow) := by
  refine ⟨unpackPublish_no_underflow_of_len, ?_, ?_⟩
  · intro fixed p1 p2 ts extra hrem hlen
    unfold unpackSubscribe
    cases hchk : (if !fixed.getDup then
        match fixed.getQos with
        | .error e => .error (.mqtt e)
        | .ok q => .ok (decide (q ≠ .AtLeast) && fixed.getRetain)
      else .ok false : Except DErr Bool) with
    | error e =>
      have : e ≠ DErr.underflow := by
        by_cases hd : !fixed.getDup
        · rw [if_pos hd] at hchk
          cases hq2 : fixed.getQos with
          | error e' =>
            rw [hq2] at hchk
            simp at hchk
            simp [← hchk]
          | ok q =>
            rw [hq2] at hchk
            simp at hchk
        · rw [if_neg hd] at hchk
          simp at hchk
      simp [this]
    | ok b =>
      cases b with
      | true => simp
      | false =>
        dsimp only
        unfold unpack_u16
        dsimp only
        unfold usizeSub
        rw [if_pos (by omega : 2 ≤ fixed.remaining_len)]
        dsimp only
        have hsub : fixed.remaining_len - 2 = subTuplesSize ts := by omega
        rw [hsub]
        cases hloop : subLoop (subTuplesSize ts) (subTuplesSize ts)
            (encodeSubTuples ts ++ extra) [] with
        | error e =>
          have := subLoop_no_underflow ts (subTuplesSize ts) [] extra
            (le_refl _) hlen
          rw [hloop] at this
          have he : e ≠ DErr.underflow := by
            intro h'
            rw [h'] at this
            exact this rfl
          simp [he]
        | ok p =>
          dsimp only
          by_cases hemp : p.1.isEmpty
          · rw [if_pos hemp]
            simp
          · rw [if_neg hemp]
            simp
  · intro fixed p1 p2 ts extra hrem hlen
    unfold unpackUnsubscribe
    unfold unpack_u16
    dsimp only
    unfold usizeSub
    rw [if_pos (by omega : 2 ≤ fixed.remaining_len)]
    dsimp only
    have hsub : fixed.remaining_len - 2 = unsubTuplesSize ts := by omega
    rw [hsub]
    cases hloop : unsubLoop (unsubTuplesSize ts) (unsubTuplesSize ts)
        (encodeUnsubTuples ts ++ extra) [] with
    | error e =>
      have := unsubLoop_no_underflow ts (unsubTuplesSize ts) [] extra
        (le_refl _) hlen
      rw [hloop] at this
      have he : e ≠ DErr.underflow := by
        intro h'
        rw [h'] at this
        exact this rfl
      simp [he]
    | ok p => simp

/-- Witness for C10's amended theorem: a consistent PUBLISH (`remaining 5`,
topic `a`, QoS 0), SUBSCRIBE (`remaining 6`, one tuple) and UNSUBSCRIBE
(`remaining 5`, one topic). -/
theorem unpack_no_underflow_when_lengths_consistent_witness :
    unpack_string [0, 1, 97, 104, 105] = .ok ([97], [104, 105]) ∧
    (FixedHeader.mk 0x30 5 1).getQos = .ok .AtMost ∧
    unpackPublish ⟨0x30, 5, 1⟩ [0, 1, 97, 104, 105] ≠ .error .underflow ∧
    unpackSubscribe ⟨0x82, 6, 1⟩
      (0 :: 10 :: (encodeSubTuples [([97], 1)] ++ [])) ≠ .error .underflow ∧
    unpackUnsubscribe ⟨0xA2, 5, 1⟩
      (0 :: 10 :: (encodeUnsubTuples [[97]] ++ [])) ≠ .error .underflow :=
  ⟨by rfl, by rfl,
    unpack_no_underflow_when_lengths_consistent.1 ⟨0x30, 5, 1⟩
      [0, 1, 97, 104, 105] [97] [104, 105] .AtMost (by rfl) (by rfl)
      (by norm_num [QosLevel.toU8]),
    unpack_no_underflow_when_lengths_consistent.2.1 ⟨0x82, 6, 1⟩ 0 10
      [([97], 1)] [] (by simp [subTuplesSize]) (by decide),
    unpack_no_underflow_when_lengths_consistent.2.2 ⟨0xA2, 5, 1⟩ 0 10
      [[97]] [] (by simp [unsubTuplesSize]) (by decide)⟩
